import Mathlib

/-!
Verification of the archive-scraper core (socorro, `src/socorro/cron/jobs/archivescraper.py`)
against its natural-language specification.

The Python code is shallowly embedded: strings are Lean `String`s manipulated
through their character lists (so everything reduces in the kernel), the remote
archive and the HTML-listing parser are abstracted as a `Site` record of pure
functions (the code only ever composes `download` with `get_links`), and the
catalog store is a list of rows with the unique key
(product_name, release_channel, version_string) enforced at insert time.
Python exceptions are modelled by `Option`/error components; Python `int()` is
modelled on the digit-string domain actually fed to it by the scraper.
-/

namespace ArchiveScraper

/-! ## String helpers (character-list models of the Python string operations) -/

/-- `hasPrefixL hay pat` : `pat` is a prefix of `hay` (model of Python slicing checks). -/
def hasPrefixL : List Char → List Char → Bool
  | _, [] => true
  | [], _ :: _ => false
  | a :: xs, b :: ys => a == b && hasPrefixL xs ys

/-- `hasSubstrL hay pat` : `pat` occurs as a contiguous substring of `hay`
(model of the Python membership test `pat in hay`). -/
def hasSubstrL : List Char → List Char → Bool
  | [], pat => pat.isEmpty
  | x :: xs, pat => hasPrefixL (x :: xs) pat || hasSubstrL xs pat

/-- Python `pat in s` on strings. -/
def strContains (s pat : String) : Bool := hasSubstrL s.data pat.data

/-- Python `s.endswith(pat)`. -/
def strEndsWith (s pat : String) : Bool := hasPrefixL s.data.reverse pat.data.reverse

/-- Python `s.startswith(pat)`. -/
def strStartsWith (s pat : String) : Bool := hasPrefixL s.data pat.data

/-- Python `s.rstrip('/')`: drop every trailing `'/'`. -/
def rstripSlash (s : String) : String :=
  String.mk ((s.data.reverse.dropWhile (fun c => c == '/')).reverse)

/-- Python `s[5:-1]` (used to turn `"build10/"` into `"10"`). -/
def pySlice5Last (s : String) : String := String.mk ((s.data.drop 5).dropLast)

/-- Python `s.split(sep)` for a one-character separator, on character lists. -/
def splitOnChar (c : Char) : List Char → List (List Char)
  | [] => [[]]
  | x :: xs =>
    let r := splitOnChar c xs
    if x == c then [] :: r
    else
      match r with
      | [] => [[x]]
      | h :: t => (x :: h) :: t

/-- The characters of `l` strictly before the first occurrence of `c`
(equals `l.split(c)[0]`, see `takeUntilChar_eq_splitOnChar_head`). -/
def takeUntilChar (c : Char) : List Char → List Char
  | [] => []
  | x :: xs => if x == c then [] else x :: takeUntilChar c xs

/-- Accumulator-style decimal value of a digit list. -/
def natOfDigitsAcc (acc : Nat) : List Char → Nat
  | [] => acc
  | c :: cs => natOfDigitsAcc (acc * 10 + (c.toNat - 48)) cs

/-- Python `int(s)` on the strings the scraper feeds it (ASCII digit strings;
`none` models the `ValueError` raised on anything else). -/
def pyInt (s : String) : Option Nat :=
  if s.data.isEmpty || !s.data.all (fun c => c.isDigit) then none
  else some (natOfDigitsAcc 0 s.data)

/-- Python `s.split('.')[0]`. -/
def splitDotHead (s : String) : String := String.mk (takeUntilChar '.' s.data)

/-- Python `text[0].isdigit()` (the scraper only applies it to the non-empty
link texts produced by `get_links`). -/
def firstIsDigit (s : String) : Bool :=
  match s.data with
  | [] => false
  | c :: _ => c.isDigit

/-- Python `s.replace(pat, '')` for a non-empty `pat`: remove every
(non-overlapping, left-to-right) occurrence. -/
def removeAllL (pat : List Char) : List Char → List Char
  | [] => []
  | x :: xs =>
    if !pat.isEmpty && hasPrefixL (x :: xs) pat then
      removeAllL pat (List.drop (pat.length - 1) xs)
    else x :: removeAllL pat xs
  termination_by l => l.length
  decreasing_by
    · simp only [List.length_cons]
      have h := List.length_drop (pat.length - 1) xs
      omega
    · simp only [List.length_cons]; omega

/-- Python `s.replace(pat, '')`. -/
def strRemoveAll (s pat : String) : String := String.mk (removeAllL pat.data s.data)

/-! ## Data model -/

/-- One hyperlink of an HTML directory listing, as produced by `get_links`:
`path` is the `href`, `text` the visible label.  `get_links` only emits links
with a non-empty `path` and a non-empty `text` different from `"."`/`".."`. -/
structure Link where
  path : String
  text : String
deriving DecidableEq, Repr

/-- The field view of one parsed build-info JSON file (`json.loads` plus the
key accesses done by `scrape_candidates`): `target.channel`, `target.version`
and `build.id` for the buildhub schema, `moz_update_channel`,
`moz_app_version` and `buildid` for the legacy schema. -/
structure JsonView where
  target_channel : String
  target_version : String
  build_id : String
  moz_update_channel : String
  moz_app_version : String
  buildid : String
deriving DecidableEq, Repr

/-- The remote side as the scraper sees it: `download` returns the page body
for a url path (already `""` for any non-200 response, cf. `download` below),
`getLinks` is `get_links` applied to a page body, `jsonData` is `json.loads`
plus field access on a build-info body (`none` models a parse/`KeyError`
fault), and `urljoin` resolves a path against the configured base url. -/
structure Site where
  download : String → String
  getLinks : String → List Link
  jsonData : String → Option JsonView
  urljoin : String → String

/-- One row of the `crashstats_productversion` catalog table. -/
structure Row where
  product_name : String
  release_channel : String
  major_version : Nat
  release_version : String
  version_string : String
  build_id : String
  archive_url : String
deriving DecidableEq, Repr

/-- The descriptor data assembled from one build-info file before the
`version_string`/channel rewriting (the `data` dict of `scrape_candidates`
just after the schema branch). -/
structure BuildData where
  product_name : String
  release_channel : String
  major_version : Nat
  release_version : String
  build_id : String
  archive_url : String
deriving DecidableEq, Repr

/-- A Python exception escaping the scraper (`ValueError` from `int`,
`IndexError` from indexing, `json.loads`/`KeyError` faults). -/
inductive PyErr where
  | valueError
  | indexError
  | jsonFault
deriving DecidableEq, Repr

/-! ## Descriptor resolution (`get_json_links`, lines 237-280) -/

/-- Substrings that indicate the thing is not a platform we want to traverse
(module constant `NON_PLATFORM_SUBSTRINGS`). -/
def NON_PLATFORM_SUBSTRINGS : List String :=
  ["beetmover", "contrib", "funnelcake", "jsshell", "logs", "mar-tools",
   "partner-repacks", "source", "update"]

/-- The `any(bad_dir in directory_link ...)` exclusion test. -/
def is_non_platform (directory_link : String) : Bool :=
  NON_PLATFORM_SUBSTRINGS.any (fun bad => strContains directory_link bad)

/-- The `.json` links of one locale listing that survive the
`mozinfo`/`test_packages` exclusion (the `json_links` list of the loop body). -/
def platform_json_links (site : Site) (directory_link : String) : List String :=
  ((site.getLinks (site.download (directory_link ++ "en-US/"))).filter
    (fun l => strEndsWith l.path ".json" && !strContains l.path "mozinfo" &&
      !strContains l.path "test_packages")).map Link.path

/-- Body of the `for directory_link in directory_links` loop of
`get_json_links`: the (at most one) build-info link this platform directory
contributes. -/
def selectPlatformLink (site : Site) (directory_link : String) : Option String :=
  if is_non_platform directory_link then none
  else
    let locale_contents := site.download (directory_link ++ "en-US/")
    if locale_contents = "" then none
    else
      let json_links := platform_json_links site directory_link
      let buildhub_links := json_links.filter (fun l => strEndsWith l "buildhub.json")
      match buildhub_links with
      | b :: _ => some b
      | [] => json_links.head?

/-- The platform (sub)directory links of a build directory listing. -/
def platform_directory_links (site : Site) (path : String) : List String :=
  ((site.getLinks (site.download path)).filter
    (fun l => strEndsWith l.text "/")).map Link.path

/-- `get_json_links`: traverses a directory of platforms and returns links to
build info files.  NOTE: the source appends one link per platform directory
that yields one; there is no early return after the first. -/
def get_json_links (site : Site) (path : String) : List String :=
  (platform_directory_links site path).foldl
    (fun acc directory_link =>
      match selectPlatformLink site directory_link with
      | some l => acc ++ [l]
      | none => acc) []

/-! ## Build ordering (`key_for_build_link`, lines 96-100) -/

/-- `key_for_build_link`: the integer made of all digit characters of the
path of the link (`none` models the `ValueError` when the path has no digits). -/
def key_for_build_link (link : Link) : Option Nat :=
  pyInt (String.mk (link.path.data.filter (fun c => c.isDigit)))

/-- Total version of the sort key (the pipeline checks `isSome` first,
mirroring the fact that `list.sort` raises if the key function does). -/
def keyNat (link : Link) : Nat := (key_for_build_link link).getD 0

/-- Insert a link into a list sorted ascending by `keyNat`, before the first
strictly larger key (so the overall sort is stable, as in Python). -/
def insertByKey (x : Link) : List Link → List Link
  | [] => [x]
  | y :: ys => if keyNat x ≤ keyNat y then x :: y :: ys else y :: insertByKey x ys

/-- `build_links.sort(key=key_for_build_link)`: stable ascending sort by the
numeric key. -/
def sortBuildLinks (ls : List Link) : List Link := ls.foldr insertByKey []

/-! ## Watermark filter (`scrape_candidates`, lines 305-317) -/

/-- One evaluation of the comprehension condition
`int(link['text'].split('.')[0]) >= major_version_minus_4 or 'esr' in link['text']`.
The `int` call is evaluated first, so its `ValueError` (`none`) fires even
for labels containing `esr`. -/
def keep_version_link (threshold : Int) (link : Link) : Option Bool :=
  match pyInt (splitDotHead link.text) with
  | some n => some (decide ((n : Int) ≥ threshold) || strContains link.text "esr")
  | none => none

/-- A Python list comprehension with a possibly-raising condition: the
conditions are evaluated left to right and the first exception discards the
whole comprehension. -/
def filterPyM (p : α → Option Bool) : List α → Option (List α)
  | [] => some []
  | x :: xs =>
    match p x with
    | none => none
    | some b =>
      match filterPyM p xs with
      | none => none
      | some ys => some (if b then x :: ys else ys)

/-- Lines 307-317: the watermark filter over the candidate version links.
`mv` is the result of `get_max_major_version`; the Python `if major_version:` is
falsy both for `None` and for `0`. -/
def filter_version_links (mv : Option Nat) (links : List Link) : Option (List Link) :=
  match mv with
  | none => some links
  | some v =>
    if v = 0 then some links
    else filterPyM (keep_version_link ((v : Int) - 4)) links

/-! ## Descriptor parsing and row synthesis (`scrape_candidates`, lines 353-432) -/

/-- Lines 354-379: download one build-info link, parse it, and build the
`data` dict (buildhub schema when the link path contains `"buildhub"`,
legacy schema otherwise).  `none` models the uncaught Python faults
(`json.loads`/`KeyError`/`ValueError` from `int`). -/
def descriptor_of (site : Site) (product_name : String) (json_link : String) :
    Option BuildData :=
  match site.jsonData (site.download json_link) with
  | none => none
  | some j =>
    if strContains json_link "buildhub" then
      match pyInt (splitDotHead j.target_version) with
      | none => none
      | some major =>
        some { product_name := product_name
               release_channel := j.target_channel
               major_version := major
               release_version := j.target_version
               build_id := j.build_id
               archive_url := site.urljoin json_link }
    else
      match pyInt (splitDotHead j.moz_app_version) with
      | none => none
      | some major =>
        some { product_name := product_name
               release_channel := j.moz_update_channel
               major_version := major
               release_version := j.moz_app_version
               build_id := j.buildid
               archive_url := site.urljoin json_link }

/-- Turn the `data` dict into a catalog row once `version_string` is set. -/
def toRow (d : BuildData) (version_string : String) : Row :=
  { product_name := d.product_name
    release_channel := d.release_channel
    major_version := d.major_version
    release_version := d.release_version
    version_string := version_string
    build_id := d.build_id
    archive_url := d.archive_url }

/-- Lines 394-432: the channel / final-build insert matrix.  The list holds
the `insert_build` calls in source order. -/
def process_descriptor_rows (d : BuildData) (version_root rc_version_string : String)
    (final_build : Bool) : List Row :=
  if final_build then
    if d.release_channel = "release" then
      [toRow { d with release_channel := "beta" } rc_version_string,
       toRow { d with release_channel := "release" } version_root]
    else
      [toRow d version_root, toRow d rc_version_string]
  else
    if d.release_channel = "release" then
      [toRow { d with release_channel := "beta" } rc_version_string]
    else
      [toRow d rc_version_string]

/-! ## The walk as a row emitter

`scrape_candidates` interleaves row inserts with traversal and any uncaught
exception aborts the rest of the walk of that product; an `Emit` is the list of rows
inserted up to that point together with the fault, if any. -/

/-- Rows emitted so far, plus the first uncaught fault if one occurred. -/
abbrev Emit := List Row × Option PyErr

/-- Sequential composition of emitting steps: a fault discards everything
after it. -/
def runEmits : List Emit → Emit
  | [] => ([], none)
  | e :: es =>
    match e.2 with
    | some err => (e.1, some err)
    | none =>
      let r := runEmits es
      (e.1 ++ r.1, r.2)

/-- Lines 353-432 for one `json_link` of one build. -/
def process_json_link (site : Site) (product_name version_root rc_version_string : String)
    (final_build : Bool) (json_link : String) : Emit :=
  match descriptor_of site product_name json_link with
  | none => ([], some .jsonFault)
  | some d => (process_descriptor_rows d version_root rc_version_string final_build, none)

/-- Lines 341-432 for the build at index `i` of `n` sorted builds:
resolve its json links (all platforms), warn-and-skip when there are none,
else process every link. -/
def process_build (site : Site) (product_name version_root : String)
    (is_final_release : Bool) (n : Nat) (i : Nat) (build_link : Link) : Emit :=
  let json_links := get_json_links site build_link.path
  if json_links.isEmpty then ([], none)
  else
    let rc_version_string := version_root ++ "rc" ++ pySlice5Last build_link.text
    let final_build := (i + 1 == n) && is_final_release
    runEmits (json_links.map
      (process_json_link site product_name version_root rc_version_string final_build))

/-- Lines 321-432 for one candidate version directory link. -/
def process_version (site : Site) (product_name : String) (final_releases : List String)
    (vlink : Link) : Emit :=
  let content := site.download vlink.path
  let build_links := (site.getLinks content).filter (fun l => strStartsWith l.text "build")
  match (splitOnChar '/' vlink.path.data).get? 4 with
  | none => ([], some .indexError)
  | some seg =>
    let version_root := strRemoveAll (String.mk seg) "-candidates"
    let is_final_release := final_releases.contains version_root
    if build_links.all (fun l => (key_for_build_link l).isSome) then
      let sorted := sortBuildLinks build_links
      runEmits (sorted.enum.map (fun p =>
        process_build site product_name version_root is_final_release sorted.length p.1 p.2))
    else ([], some .valueError)

/-- Lines 290-297: the final release version names from
`/pub/PRODUCT/releases/`. -/
def final_releases_of (site : Site) (archive_directory : String) : List String :=
  ((site.getLinks (site.download ("/pub/" ++ archive_directory ++ "/releases/"))).filter
    (fun l => firstIsDigit l.text)).map (fun l => rstripSlash l.text)

/-- Lines 299-303: the digit-led links of `/pub/PRODUCT/candidates/`. -/
def version_links_of (site : Site) (archive_directory : String) : List Link :=
  (site.getLinks (site.download ("/pub/" ++ archive_directory ++ "/candidates/"))).filter
    (fun l => firstIsDigit l.text)

/-- `scrape_candidates` as a pure row derivation: given the remote tree and
the current watermark of the product, the rows it attempts to insert, in order,
plus the first uncaught fault if any. -/
def scrape_candidates_rows (site : Site) (product_name archive_directory : String)
    (mv : Option Nat) : Emit :=
  match filter_version_links mv (version_links_of site archive_directory) with
  | none => ([], some .valueError)
  | some filtered =>
    runEmits (filtered.map
      (process_version site product_name (final_releases_of site archive_directory)))

/-! ## The catalog store

The store enforces uniqueness of (product_name, release_channel,
version_string); a conflicting insert raises `IntegrityError`, which
`insert_build` absorbs (the `except psycopg2.IntegrityError: pass` branch), so
at the store level a duplicate attempt is a no-op that leaves
`successful_inserts` unchanged. -/

/-- The unique key of `crashstats_productversion`. -/
def rowKey (r : Row) : String × String × String :=
  (r.product_name, r.release_channel, r.version_string)

/-- The catalog plus the run-scoped `successful_inserts` counter. -/
structure Store where
  rows : List Row
  successful_inserts : Nat
deriving DecidableEq, Repr

/-- Whether a row with the same unique key is already present. -/
def hasKey (s : Store) (r : Row) : Bool :=
  s.rows.any (fun x => rowKey x == rowKey r)

/-- One `insert_build` call at the store level: duplicate key → absorbed
`IntegrityError`, no counter change; otherwise the row is appended and
`successful_inserts` incremented. -/
def insert_build (s : Store) (r : Row) : Store :=
  if hasKey s r then s
  else { rows := s.rows ++ [r], successful_inserts := s.successful_inserts + 1 }

/-- The sequence of `insert_build` calls a run performs. -/
def insertAll (s : Store) (rs : List Row) : Store := rs.foldl insert_build s

/-- `max(acc, n)` where `acc` may still be SQL `NULL`. -/
def optMax (acc : Option Nat) (n : Nat) : Option Nat :=
  match acc with
  | none => some n
  | some m => some (max m n)

/-- `get_max_major_version` (lines 135-156): `SELECT max(major_version) ...
WHERE product_name = %s`, `None` on an empty table. -/
def get_max_major_version (s : Store) (product_name : String) : Option Nat :=
  (s.rows.filter (fun r => r.product_name == product_name)).foldl
    (fun acc r => optMax acc r.major_version) none

/-- One product walk against the store: compute the watermark, derive the
rows, perform their inserts.  (A fault aborts the derivation after the rows
emitted so far, which are exactly the inserts that already happened.) -/
def walk_product (site : Site) (product_name archive_directory : String)
    (s : Store) : Store :=
  insertAll s (scrape_candidates_rows site product_name archive_directory
    (get_max_major_version s product_name)).1

/-! ## `insert_build` outcome handling (lines 185-192)

The `try`/`except` around `cursor.execute`: `IntegrityError` → `pass`;
any other `psycopg2.Error` → logged, swallowed; success → counter + 1.
`Except String Nat` makes "returns without raising" visible as `.ok`. -/

/-- What one `cursor.execute` attempt did at the database. -/
inductive InsertOutcome where
  | success
  | integrityError
  | otherDbError (detail : String)
deriving DecidableEq, Repr

/-- The effect of one `insert_build` call on `successful_inserts`, given the
database outcome.  Every branch returns normally (`ok`). -/
def insert_build_outcome (outcome : InsertOutcome) (successful_inserts : Nat) :
    Except String Nat :=
  match outcome with
  | .success => .ok (successful_inserts + 1)
  | .integrityError => .ok successful_inserts
  | .otherDbError _ => .ok successful_inserts

/-- The sequence of insert attempts of one walk, threading the counter. -/
def insert_build_outcomes (outcomes : List InsertOutcome) (successful_inserts : Nat) :
    Except String Nat :=
  match outcomes with
  | [] => .ok successful_inserts
  | o :: os =>
    match insert_build_outcome o successful_inserts with
    | .ok n => insert_build_outcomes os n
    | .error e => .error e

/-! ## The fetch layer (`download`, lines 214-235) -/

/-- An HTTP response as `requests` hands it back. -/
structure HttpResponse where
  status_code : Nat
  content : String
deriving DecidableEq, Repr

/-- `download`: fetch a url path and return its body, or `""` whenever the
status code is not exactly 200. -/
def download (get : String → HttpResponse) (url_path : String) : String :=
  let resp := get url_path
  if resp.status_code ≠ 200 then "" else resp.content

/-! ## The top-level run (`ArchiveScraperCronApp.run`, lines 434-452)

`run` performs three sequential `scrape_candidates` calls with no exception
handler, so an uncaught connection-level fault in one walk propagates and the
later calls never execute.  The walks are abstracted by the fault they raise,
if any. -/

/-- A connection-level fault: retries exhausted at the fetch layer. -/
inductive ConnFault where
  | timeout
deriving DecidableEq, Repr

/-- The product list of `run`, in call order. -/
def PRODUCT_RUNS : List (String × String) :=
  [("Firefox", "firefox"), ("DevEdition", "devedition"), ("Fennec", "mobile")]

/-- Walk the products in order; stop at the first fault (no handler in
`run`).  Returns the product names whose walk was attempted, and the fault
that escaped, if any. -/
def run_products_aux (walkFault : String → Option ConnFault) :
    List (String × String) → List String × Option ConnFault
  | [] => ([], none)
  | (p, _) :: rest =>
    match walkFault p with
    | some f => ([p], some f)
    | none =>
      let r := run_products_aux walkFault rest
      (p :: r.1, r.2)

/-- `ArchiveScraperCronApp.run`. -/
def run_products (walkFault : String → Option ConnFault) :
    List String × Option ConnFault :=
  run_products_aux walkFault PRODUCT_RUNS

/-! ## Specification-side definitions used to state the claims -/

/-- The leading integer of a label: the decimal value of its maximal digit
prefix (what the spec calls "the leading integer of versionLabel"). -/
def leadingNat (s : String) : Nat :=
  natOfDigitsAcc 0 (s.data.takeWhile (fun c => c.isDigit))

/-- A label on which the Python extraction `int(label.split('.')[0])` cannot
raise: the segment before the first dot is a non-empty digit string.  Every
real archive label (`"63.0b7-candidates/"`, `"52.6.0esr-candidates/"`) is of
this shape. -/
def goodLabel (s : String) : Bool :=
  !(takeUntilChar '.' s.data).isEmpty &&
    (takeUntilChar '.' s.data).all (fun c => c.isDigit)

/-- The major-version extraction `int(s.split('.')[0])` used at lines 314,
363 and 375. -/
def extract_major (s : String) : Option Nat := pyInt (splitDotHead s)

/-! ## Helper lemmas -/

/-- `takeUntilChar` really is the head of the Python-style split. -/
theorem takeUntilChar_eq_splitOnChar_head (c : Char) (l : List Char) :
    (splitOnChar c l).head? = some (takeUntilChar c l) := by
  induction l with
  | nil => rfl
  | cons x xs ih =>
    simp only [splitOnChar, takeUntilChar]
    by_cases hx : x == c
    · simp [hx]
    · simp only [hx, Bool.false_eq_true, if_false]
      cases hr : splitOnChar c xs with
      | nil => rw [hr] at ih; simp at ih
      | cons h t =>
        rw [hr] at ih
        simp only [List.head?_cons, Option.some.injEq] at ih
        simp [ih]

/-- If everything before the first dot is a digit, the maximal digit prefix
is exactly the segment before the first dot. -/
theorem takeWhile_digits_eq_takeUntil (l : List Char)
    (h : (takeUntilChar '.' l).all (fun c => c.isDigit) = true) :
    l.takeWhile (fun c => c.isDigit) = takeUntilChar '.' l := by
  induction l with
  | nil => rfl
  | cons x xs ih =>
    by_cases hx : x == '.'
    · have hx' : x = '.' := by exact eq_of_beq hx
      subst hx'
      simp [takeUntilChar, List.takeWhile]
    · simp only [takeUntilChar, hx, Bool.false_eq_true, if_false] at h ⊢
      simp only [List.all_cons, Bool.and_eq_true] at h
      simp [List.takeWhile, h.1, ih h.2]

/-- On a good label the extraction succeeds and computes the leading integer. -/
theorem extract_major_of_goodLabel (s : String) (h : goodLabel s = true) :
    extract_major s = some (leadingNat s) := by
  unfold goodLabel at h
  simp only [Bool.and_eq_true, Bool.not_eq_true'] at h
  unfold extract_major splitDotHead pyInt leadingNat
  simp only [h.1, h.2, Bool.not_true, Bool.or_false, Bool.false_or,
    Bool.false_eq_true, if_false]
  rw [takeWhile_digits_eq_takeUntil s.data h.2]

/-- The extraction succeeds exactly on good labels. -/
theorem extract_major_isSome_iff (s : String) :
    (extract_major s).isSome = true ↔ goodLabel s = true := by
  unfold extract_major splitDotHead pyInt goodLabel
  by_cases h1 : (takeUntilChar '.' s.data).isEmpty
  · simp [h1]
  · by_cases h2 : (takeUntilChar '.' s.data).all (fun c => c.isDigit)
    · simp [h1, h2]
    · simp [h1, h2]

/-- On a good label `keep_version_link` evaluates the claimed condition. -/
theorem keep_version_link_of_goodLabel (t : Int) (link : Link)
    (h : goodLabel link.text = true) :
    keep_version_link t link =
      some (decide ((leadingNat link.text : Int) ≥ t) ||
        strContains link.text "esr") := by
  have he := extract_major_of_goodLabel link.text h
  unfold extract_major at he
  unfold keep_version_link
  rw [he]

/-- A raising-condition comprehension whose condition never raises is an
ordinary filter. -/
theorem filterPyM_eq_filter (p : α → Option Bool) (q : α → Bool) :
    ∀ l : List α, (∀ x ∈ l, p x = some (q x)) →
      filterPyM p l = some (l.filter q) := by
  intro l
  induction l with
  | nil => intro _; rfl
  | cons x xs ih =>
    intro h
    have hx := h x (List.mem_cons_self x xs)
    have hxs := ih (fun y hy => h y (List.mem_cons_of_mem x hy))
    unfold filterPyM
    rw [hx, hxs]
    by_cases hq : q x
    · simp [List.filter_cons, hq]
    · simp [List.filter_cons, hq]

/-! ## C9 -/

/-- C9 counterexample: the label `"52esr-candidates/"` begins with a digit,
yet `int(label.split('.')[0])` raises `ValueError` (the extraction fails),
because the segment before the first dot is the whole label, which is not a
digit string.  This refutes "the failure branch is unreachable under the
precondition that the label begins with a digit". -/
theorem c9_counterexample :
    firstIsDigit "52esr-candidates/" = true ∧
    extract_major "52esr-candidates/" = none := by
  constructor
  · decide
  · decide

/-- C9 (amended): the major-version extraction `int(label.split('.')[0])`
succeeds exactly on labels whose segment before the first dot is a non-empty
digit string, and on those labels it yields the leading integer of the label
(the value of its maximal digit prefix). -/
theorem c9_extract_major_characterization (s : String) :
    ((extract_major s).isSome = true ↔ goodLabel s = true) ∧
    (goodLabel s = true → extract_major s = some (leadingNat s)) :=
  ⟨extract_major_isSome_iff s, extract_major_of_goodLabel s⟩

/-- C9 witness: on `"63.0b7-candidates/"` the hypothesis holds and the
extraction yields the leading integer 63. -/
theorem c9_extract_major_characterization_witness :
    goodLabel "63.0b7-candidates/" = true ∧
    extract_major "63.0b7-candidates/" = some 63 := by
  refine ⟨by decide, ?_⟩
  have h := (c9_extract_major_characterization "63.0b7-candidates/").2 (by decide)
  rw [h]
  decide

/-! ## C3 -/

/-- C3: watermark filtering.  With no recorded major version every candidate
link is kept unchanged.  With watermark `w` (any value, including the falsy
`0`, for which the code skips the filter entirely but the condition is
vacuously true on digit-led labels), a candidate is kept iff the leading
integer of its label is at least `w - 4` or the label contains `"esr"` —
provided every label is well formed (digit segment before the first dot),
which is exactly when the Python filter does not raise. -/
theorem c3_watermark_filter (links : List Link) (w : Nat)
    (hgood : ∀ l ∈ links, goodLabel l.text = true) :
    filter_version_links none links = some links ∧
    filter_version_links (some w) links =
      some (links.filter (fun l =>
        decide ((leadingNat l.text : Int) ≥ (w : Int) - 4) ||
          strContains l.text "esr")) := by
  constructor
  · rfl
  · have hstep : filter_version_links (some w) links =
      if w = 0 then some links
      else filterPyM (keep_version_link ((w : Int) - 4)) links := rfl
    rw [hstep]
    by_cases hw : w = 0
    · subst hw
      rw [if_pos rfl]
      congr 1
      symm
      apply List.filter_eq_self.mpr
      intro l hl
      have h4 : ((leadingNat l.text : Int) ≥ (0 : Int) - 4) := by
        have := Int.natCast_nonneg (leadingNat l.text)
        omega
      simp only [Bool.or_eq_true, decide_eq_true_eq]
      left
      omega
    · rw [if_neg hw]
      exact filterPyM_eq_filter _ _ links
        (fun l hl => keep_version_link_of_goodLabel _ l (hgood l hl))

/-- C3 witness: watermark 63 keeps `"59.0b1-candidates/"` (59 ≥ 59), drops
`"58.0b1-candidates/"`, and keeps `"52.0esr-candidates/"` via the esr
override. -/
theorem c3_watermark_filter_witness :
    filter_version_links (some 63)
        [⟨"a/", "59.0b1-candidates/"⟩, ⟨"b/", "58.0b1-candidates/"⟩,
         ⟨"c/", "52.0esr-candidates/"⟩] =
      some [⟨"a/", "59.0b1-candidates/"⟩, ⟨"c/", "52.0esr-candidates/"⟩] := by
  rw [(c3_watermark_filter
    [⟨"a/", "59.0b1-candidates/"⟩, ⟨"b/", "58.0b1-candidates/"⟩,
     ⟨"c/", "52.0esr-candidates/"⟩] 63 (by decide)).2]
  decide

/-! ## C4 -/

/-- `insertByKey` inserts, up to permutation. -/
theorem insertByKey_perm (x : Link) (l : List Link) :
    (insertByKey x l).Perm (x :: l) := by
  induction l with
  | nil => exact List.Perm.refl _
  | cons y ys ih =>
    unfold insertByKey
    by_cases h : keyNat x ≤ keyNat y
    · rw [if_pos h]
    · rw [if_neg h]
      exact (ih.cons y).trans (List.Perm.swap x y ys)

/-- `insertByKey` preserves sortedness by `keyNat`. -/
theorem insertByKey_pairwise (x : Link) (l : List Link)
    (h : List.Pairwise (fun a b => keyNat a ≤ keyNat b) l) :
    List.Pairwise (fun a b => keyNat a ≤ keyNat b) (insertByKey x l) := by
  induction l with
  | nil => simp [insertByKey]
  | cons y ys ih =>
    rcases List.pairwise_cons.mp h with ⟨hy, hys⟩
    unfold insertByKey
    by_cases hxy : keyNat x ≤ keyNat y
    · rw [if_pos hxy]
      refine List.pairwise_cons.mpr ⟨?_, h⟩
      intro z hz
      rcases List.mem_cons.mp hz with hz | hz
      · subst hz; exact hxy
      · exact le_trans hxy (hy z hz)
    · rw [if_neg hxy]
      refine List.pairwise_cons.mpr ⟨?_, ih hys⟩
      intro z hz
      have hz' : z ∈ x :: ys := (insertByKey_perm x ys).mem_iff.mp hz
      rcases List.mem_cons.mp hz' with hz' | hz'
      · subst hz'; omega
      · exact hy z hz'

/-- The build sort is a permutation of its input. -/
theorem sortBuildLinks_perm (ls : List Link) : (sortBuildLinks ls).Perm ls := by
  induction ls with
  | nil => exact List.Perm.refl _
  | cons x xs ih =>
    exact (insertByKey_perm x (sortBuildLinks xs)).trans (ih.cons x)

/-- The build sort output is ascending in the numeric key. -/
theorem sortBuildLinks_pairwise (ls : List Link) :
    List.Pairwise (fun a b => keyNat a ≤ keyNat b) (sortBuildLinks ls) := by
  induction ls with
  | nil => simp [sortBuildLinks]
  | cons x xs ih => exact insertByKey_pairwise x (sortBuildLinks xs) ih

/-- C4: build directories are sorted ascending by the numeric value of the
digits extracted from their paths (`key_for_build_link`), not
lexicographically: the sort permutes its input into ascending `keyNat` order,
`"build10/"` keys to 10, and the labels `build1/…build10/` end up with keys
`[1, 2, 10]` whichever order they arrive in (a lexicographic sort would give
`[1, 10, 2]`). -/
theorem c4_numeric_build_sort :
    (∀ ls : List Link,
      (sortBuildLinks ls).Perm ls ∧
      List.Pairwise (fun a b => keyNat a ≤ keyNat b) (sortBuildLinks ls)) ∧
    key_for_build_link ⟨"build10/", "build10/"⟩ = some 10 ∧
    (sortBuildLinks [⟨"build1/", "build1/"⟩, ⟨"build2/", "build2/"⟩,
        ⟨"build10/", "build10/"⟩]).map keyNat = [1, 2, 10] ∧
    (sortBuildLinks [⟨"build10/", "build10/"⟩, ⟨"build2/", "build2/"⟩,
        ⟨"build1/", "build1/"⟩]).map keyNat = [1, 2, 10] := by
  refine ⟨fun ls => ⟨sortBuildLinks_perm ls, sortBuildLinks_pairwise ls⟩, ?_, ?_, ?_⟩
  · decide
  · decide
  · decide

/-! ## C2 -/

/-- The (channel, version_string) projection of a synthesized row. -/
def rowCV (r : Row) : String × String := (r.release_channel, r.version_string)

/-- C2: the channel / final-build matrix of the catalog writer, as the
sequence of (channel, version_string) pairs handed to `insert_build`, for
every resolved descriptor.  final + release: exactly the two rows
(beta, rc_version_string) then (release, version_root); final + other
channel: exactly two rows under the descriptor channel, version_root then
rc_version_string; non-final: exactly one row with rc_version_string, channel
forced to beta iff the descriptor said release. -/
theorem c2_row_matrix (d : BuildData) (version_root rc_version_string : String) :
    (d.release_channel = "release" →
      (process_descriptor_rows d version_root rc_version_string true).map rowCV =
        [("beta", rc_version_string), ("release", version_root)] ∧
      (process_descriptor_rows d version_root rc_version_string false).map rowCV =
        [("beta", rc_version_string)]) ∧
    (d.release_channel ≠ "release" →
      (process_descriptor_rows d version_root rc_version_string true).map rowCV =
        [(d.release_channel, version_root), (d.release_channel, rc_version_string)] ∧
      (process_descriptor_rows d version_root rc_version_string false).map rowCV =
        [(d.release_channel, rc_version_string)]) := by
  constructor
  · intro h
    unfold process_descriptor_rows
    rw [if_pos h, if_pos h]
    constructor <;> rfl
  · intro h
    unfold process_descriptor_rows
    rw [if_neg h, if_neg h]
    constructor <;> rfl

/-- C2 witness: the spec examples — a release-channel descriptor of train
63.0 at rc build 5, final and non-final, and a beta-channel descriptor of
train 63.0b7 at rc build 3, final. -/
theorem c2_row_matrix_witness :
    (process_descriptor_rows
        ⟨"Firefox", "release", 63, "63.0", "bid", "url"⟩ "63.0" "63.0rc5" true).map rowCV =
      [("beta", "63.0rc5"), ("release", "63.0")] ∧
    (process_descriptor_rows
        ⟨"Firefox", "release", 63, "63.0", "bid", "url"⟩ "63.0" "63.0rc5" false).map rowCV =
      [("beta", "63.0rc5")] ∧
    (process_descriptor_rows
        ⟨"Firefox", "beta", 63, "63.0", "bid", "url"⟩ "63.0b7" "63.0b7rc3" true).map rowCV =
      [("beta", "63.0b7"), ("beta", "63.0b7rc3")] := by
  refine ⟨?_, ?_, ?_⟩
  · exact ((c2_row_matrix ⟨"Firefox", "release", 63, "63.0", "bid", "url"⟩
      "63.0" "63.0rc5").1 rfl).1
  · exact ((c2_row_matrix ⟨"Firefox", "release", 63, "63.0", "bid", "url"⟩
      "63.0" "63.0rc5").1 rfl).2
  · exact ((c2_row_matrix ⟨"Firefox", "beta", 63, "63.0", "bid", "url"⟩
      "63.0b7" "63.0b7rc3").2 (by decide)).1

/-! ## C1 -/

/-- A concrete build directory with the platform listing
`[mac/, linux-i686/, win32/]` where `mac/` has no en-US locale subtree and
both `linux-i686/` and `win32/` carry a buildhub descriptor. -/
def c1Site : Site :=
  { download := fun p =>
      if p == "build7/" then "BUILDPAGE"
      else if p == "linux-i686/en-US/" then "LNXPAGE"
      else if p == "win32/en-US/" then "WINPAGE"
      else ""
    getLinks := fun c =>
      if c == "BUILDPAGE" then
        [⟨"mac/", "mac/"⟩, ⟨"linux-i686/", "linux-i686/"⟩, ⟨"win32/", "win32/"⟩]
      else if c == "LNXPAGE" then [⟨"lnx.buildhub.json", "lnx.buildhub.json"⟩]
      else if c == "WINPAGE" then [⟨"win.buildhub.json", "win.buildhub.json"⟩]
      else []
    jsonData := fun _ => none
    urljoin := fun p => p }

/-- C1 evidence: on the scenario of the claim, `get_json_links` returns one
descriptor link per usable platform — the linux one first, but the win32 one
as well (there is no break after the first success), so two descriptors are
produced for the build, contradicting the claim (and lines 29-31 of the
module docstring, which promise first-platform-only behavior). -/
theorem c1_code_consults_all_platforms :
    get_json_links c1Site "build7/" = ["lnx.buildhub.json", "win.buildhub.json"] ∧
    (get_json_links c1Site "build7/").length = 2 := by
  constructor
  · decide
  · decide

/-! ## C10 -/

/-- Keys are not filtered: `(l.filter p).head? = l.find? p`. -/
theorem filter_head_eq_find (p : α → Bool) :
    ∀ l : List α, (l.filter p).head? = l.find? p := by
  intro l
  induction l with
  | nil => rfl
  | cons x xs ih =>
    by_cases h : p x
    · simp [List.filter_cons, List.find?, h]
    · simp only [List.filter_cons, h, Bool.false_eq_true, if_false]
      rw [ih, List.find?]
      simp [h]

/-- C10: each platform directory contributes at most one link; for a
non-excluded platform with a non-empty en-US locale page the contributed link
is the first `buildhub.json`-suffixed one among its filtered `.json` links
when one exists, the first filtered `.json` link otherwise, and nothing when
there are none; consequently a build yields at most one link per platform
directory entry. -/
theorem c10_at_most_one_link_per_platform (site : Site) (directory_link : String)
    (path : String) :
    (selectPlatformLink site directory_link).toList.length ≤ 1 ∧
    (is_non_platform directory_link = false →
      site.download (directory_link ++ "en-US/") ≠ "" →
      selectPlatformLink site directory_link =
        (match (platform_json_links site directory_link).find?
            (fun l => strEndsWith l "buildhub.json") with
         | some b => some b
         | none => (platform_json_links site directory_link).head?)) ∧
    (get_json_links site path).length ≤ (platform_directory_links site path).length := by
  refine ⟨?_, ?_, ?_⟩
  · cases selectPlatformLink site directory_link <;> simp
  · intro hnp hloc
    unfold selectPlatformLink
    rw [hnp]
    simp only [Bool.false_eq_true, if_false, if_neg hloc]
    rw [← filter_head_eq_find]
    cases hb : (platform_json_links site directory_link).filter
        (fun l => strEndsWith l "buildhub.json") with
    | nil => simp [hb]
    | cons b bs => simp [hb]
  · unfold get_json_links
    have hgen : ∀ (ls : List String) (acc : List String),
        (ls.foldl (fun acc directory_link =>
          match selectPlatformLink site directory_link with
          | some l => acc ++ [l]
          | none => acc) acc).length ≤ acc.length + ls.length := by
      intro ls
      induction ls with
      | nil => intro acc; simp
      | cons d ds ih =>
        intro acc
        simp only [List.foldl_cons, List.length_cons]
        cases selectPlatformLink site d with
        | none =>
          have hred : (match (none : Option String) with
            | some l => acc ++ [l] | none => acc) = acc := rfl
          rw [hred]
          have := ih acc
          omega
        | some l =>
          have hred : (match (some l : Option String) with
            | some l => acc ++ [l] | none => acc) = acc ++ [l] := rfl
          rw [hred]
          have := ih (acc ++ [l])
          simp only [List.length_append, List.length_singleton] at this
          omega
    have := hgen (platform_directory_links site path) []
    simpa using this

/-- C10 witness: on the C1 scenario, the linux platform directory is not
excluded, has a non-empty locale page, and contributes exactly its buildhub
link. -/
theorem c10_at_most_one_link_per_platform_witness :
    selectPlatformLink c1Site "linux-i686/" = some "lnx.buildhub.json" := by
  have h := (c10_at_most_one_link_per_platform c1Site "linux-i686/" "build7/").2.1
    (by decide) (by decide)
  rw [h]
  decide

/-! ## C6 -/

/-- A run in which the Firefox walk raises a connection fault. -/
def c6Fault : String → Option ConnFault :=
  fun p => if p == "Firefox" then some .timeout else none

/-- C6 counterexample: with a connection fault during the Firefox walk, the
run attempts no further product — DevEdition and Fennec are never walked, so
the fault does not abort "only that product's walk". -/
theorem c6_counterexample :
    run_products c6Fault = (["Firefox"], some .timeout) ∧
    "DevEdition" ∉ (run_products c6Fault).1 ∧
    "Fennec" ∉ (run_products c6Fault).1 := by
  refine ⟨?_, ?_, ?_⟩ <;> decide

/-- C6 (amended): `run` has no exception handler around its three sequential
`scrape_candidates` calls, so a connection-level fault while walking one
product aborts that walk and the whole run: exactly the products up to and
including the faulting one are attempted, later ones never are. -/
theorem c6_fault_aborts_whole_run (walkFault : String → Option ConnFault)
    (e : ConnFault) :
    (walkFault "Firefox" = some e →
      run_products walkFault = (["Firefox"], some e)) ∧
    (walkFault "Firefox" = none → walkFault "DevEdition" = some e →
      run_products walkFault = (["Firefox", "DevEdition"], some e)) ∧
    (walkFault "Firefox" = none → walkFault "DevEdition" = none →
      walkFault "Fennec" = some e →
      run_products walkFault = (["Firefox", "DevEdition", "Fennec"], some e)) := by
  refine ⟨?_, ?_, ?_⟩
  · intro h1
    simp [run_products, PRODUCT_RUNS, run_products_aux, h1]
  · intro h1 h2
    simp [run_products, PRODUCT_RUNS, run_products_aux, h1, h2]
  · intro h1 h2 h3
    simp [run_products, PRODUCT_RUNS, run_products_aux, h1, h2, h3]

/-- C6 witness: the amended behavior at the concrete faulting assignment. -/
theorem c6_fault_aborts_whole_run_witness :
    c6Fault "Firefox" = some ConnFault.timeout ∧
    run_products c6Fault = (["Firefox"], some ConnFault.timeout) :=
  ⟨rfl, (c6_fault_aborts_whole_run c6Fault ConnFault.timeout).1 rfl⟩

/-! ## C7 -/

/-- The counter after a sequence of insert attempts: every attempt returns
normally and only successes count. -/
theorem insert_build_outcomes_ok (outcomes : List InsertOutcome) (n : Nat) :
    insert_build_outcomes outcomes n =
      .ok (n + outcomes.countP (fun o => o == InsertOutcome.success)) := by
  induction outcomes generalizing n with
  | nil => simp [insert_build_outcomes]
  | cons o os ih =>
    cases o <;>
      (simp [insert_build_outcomes, insert_build_outcome, ih, List.countP_cons]
       try omega)

/-- C7: insert outcome handling.  A uniqueness violation is absorbed: no
raise, no counter change.  Any other store-level error likewise returns
normally with no counter change (it is only logged).  A successful insert
adds one.  Consequently a whole sequence of attempts never aborts: it always
returns `ok` with the initial counter plus the number of successes. -/
theorem c7_insert_outcome_handling :
    (∀ (o : InsertOutcome) (m : Nat),
      insert_build_outcome o m =
        .ok (m + if o == InsertOutcome.success then 1 else 0)) ∧
    (∀ (outcomes : List InsertOutcome) (n : Nat),
      insert_build_outcomes outcomes n =
        .ok (n + outcomes.countP (fun o => o == InsertOutcome.success))) := by
  constructor
  · intro o m
    cases o <;> simp [insert_build_outcome]
  · exact insert_build_outcomes_ok

/-! ## C8 -/

/-- A server that answers 201 Created with a non-empty body. -/
def c8Get : String → HttpResponse := fun _ => ⟨201, "created"⟩

/-- C8 counterexample: a 201 response is a success (2xx) with a non-empty
body, yet `download` returns empty content because the source compares the
status to exactly 200. -/
theorem c8_counterexample :
    200 ≤ (c8Get "p").status_code ∧ (c8Get "p").status_code < 300 ∧
    (c8Get "p").content ≠ "" ∧
    download c8Get "p" = "" := by
  refine ⟨?_, ?_, ?_, ?_⟩ <;> decide

/-- C8 (amended): `download` never raises for an HTTP-level failure (it is a
total function of the response) and returns the body exactly when the status
is 200 (or the body is itself empty); every other status — including other
2xx statuses — yields empty content. -/
theorem c8_download_characterization (get : String → HttpResponse)
    (url_path : String) :
    (download get url_path = (get url_path).content ↔
      ((get url_path).status_code = 200 ∨ (get url_path).content = "")) ∧
    (download get url_path = "" ↔
      ((get url_path).status_code ≠ 200 ∨ (get url_path).content = "")) := by
  unfold download
  by_cases h : (get url_path).status_code = 200
  · simp [h]
  · simp [h, eq_comm]

/-! ## C5: store lemmas -/

/-- Inserting keeps every key that was already present. -/
theorem hasKey_insert_mono (s : Store) (x r : Row) (h : hasKey s r = true) :
    hasKey (insert_build s x) r = true := by
  unfold insert_build
  by_cases hx : hasKey s x
  · rw [if_pos hx]; exact h
  · rw [if_neg hx]
    unfold hasKey at h ⊢
    simp only [List.any_append, Bool.or_eq_true]
    exact Or.inl h

/-- After inserting `r` its key is present. -/
theorem hasKey_insert_self (s : Store) (r : Row) :
    hasKey (insert_build s r) r = true := by
  unfold insert_build
  by_cases hx : hasKey s r
  · rw [if_pos hx]; exact hx
  · rw [if_neg hx]
    unfold hasKey
    simp [List.any_append]

/-- `insertAll` keeps every key that was already present. -/
theorem hasKey_insertAll_mono (rs : List Row) (s : Store) (r : Row)
    (h : hasKey s r = true) : hasKey (insertAll s rs) r = true := by
  induction rs generalizing s with
  | nil => exact h
  | cons x xs ih => exact ih (insert_build s x) (hasKey_insert_mono s x r h)

/-- After `insertAll`, every inserted row has its key present. -/
theorem hasKey_insertAll_mem (rs : List Row) (s : Store) (r : Row)
    (h : r ∈ rs) : hasKey (insertAll s rs) r = true := by
  induction rs generalizing s with
  | nil => cases h
  | cons x xs ih =>
    rcases List.mem_cons.mp h with h' | h'
    · subst h'
      exact hasKey_insertAll_mono xs (insert_build s r) r (hasKey_insert_self s r)
    · exact ih (insert_build s x) h'

/-- A duplicate insert is a no-op. -/
theorem insert_build_of_hasKey (s : Store) (r : Row) (h : hasKey s r = true) :
    insert_build s r = s := by
  unfold insert_build
  rw [if_pos h]

/-- A run all of whose rows are already present changes nothing — neither the
catalog nor `successful_inserts`. -/
theorem insertAll_of_hasKey (s : Store) (rs : List Row)
    (h : ∀ r ∈ rs, hasKey s r = true) : insertAll s rs = s := by
  induction rs with
  | nil => rfl
  | cons x xs ih =>
    have hx : insert_build s x = s :=
      insert_build_of_hasKey s x (h x (List.mem_cons_self x xs))
    show insertAll (insert_build s x) xs = s
    rw [hx]
    exact ih (fun r hr => h r (List.mem_cons_of_mem x hr))

/-- `insertAll` only appends rows. -/
theorem insertAll_rows_append (rs : List Row) (s : Store) :
    ∃ extra, (insertAll s rs).rows = s.rows ++ extra := by
  induction rs generalizing s with
  | nil => exact ⟨[], by simp [insertAll]⟩
  | cons x xs ih =>
    obtain ⟨e, he⟩ := ih (insert_build s x)
    by_cases hx : hasKey s x
    · refine ⟨e, he.trans ?_⟩
      rw [insert_build_of_hasKey s x hx]
    · refine ⟨[x] ++ e, he.trans ?_⟩
      unfold insert_build
      rw [if_neg hx, List.append_assoc]

/-- Folding `optMax` from a known value can only go up. -/
theorem foldl_optMax_some (l : List Row) (v : Nat) :
    ∃ m, l.foldl (fun acc r => optMax acc r.major_version) (some v) = some m ∧
      v ≤ m := by
  induction l generalizing v with
  | nil => exact ⟨v, rfl, le_refl v⟩
  | cons x xs ih =>
    obtain ⟨m, hm, hv⟩ := ih (max v x.major_version)
    refine ⟨m, ?_, le_trans (le_max_left _ _) hv⟩
    simpa [optMax] using hm

/-- The watermark of a product can only grow across a run. -/
theorem get_max_major_mono (s : Store) (rs : List Row) (p : String) (v : Nat)
    (h : get_max_major_version s p = some v) :
    ∃ v2, get_max_major_version (insertAll s rs) p = some v2 ∧ v ≤ v2 := by
  obtain ⟨extra, hex⟩ := insertAll_rows_append rs s
  unfold get_max_major_version at h ⊢
  rw [hex, List.filter_append, List.foldl_append, h]
  exact foldl_optMax_some _ v

/-! ## C5: emit-sequence lemmas -/

/-- Every row a sequence of steps emits comes from one of the steps. -/
theorem runEmits_mem : ∀ (es : List Emit) (r : Row),
    r ∈ (runEmits es).1 → ∃ e ∈ es, r ∈ e.1
  | [], r, h => absurd h (by simp [runEmits])
  | (rows, none) :: es, r, h => by
    simp only [runEmits] at h
    rcases List.mem_append.mp h with h1 | h2
    · exact ⟨(rows, none), List.mem_cons_self _ _, h1⟩
    · obtain ⟨e, he, hr⟩ := runEmits_mem es r h2
      exact ⟨e, List.mem_cons_of_mem _ he, hr⟩
  | (rows, some err) :: es, r, h => by
    simp only [runEmits] at h
    exact ⟨(rows, some err), List.mem_cons_self _ _, h⟩

/-- A fault-free sequence emits the rows of all of its steps. -/
theorem runEmits_mem_of_clean : ∀ (es : List Emit),
    (runEmits es).2 = none → ∀ e ∈ es, ∀ r ∈ e.1, r ∈ (runEmits es).1
  | [], _, e, he, _, _ => absurd he (by simp)
  | (rows, none) :: es, hcl, e, he, r, hr => by
    simp only [runEmits] at hcl ⊢
    rcases List.mem_cons.mp he with he' | he'
    · subst he'
      exact List.mem_append.mpr (Or.inl hr)
    · exact List.mem_append.mpr (Or.inr (runEmits_mem_of_clean es hcl e he' r hr))
  | (rows, some err) :: es, hcl, e, he, r, hr => by
    simp only [runEmits] at hcl
    cases hcl

/-! ## C5: filter-monotonicity lemmas -/

/-- A comprehension result is a subset of its input. -/
theorem filterPyM_subset (p : α → Option Bool) :
    ∀ (l f : List α), filterPyM p l = some f → ∀ x ∈ f, x ∈ l := by
  intro l
  induction l with
  | nil =>
    intro f hf x hx
    unfold filterPyM at hf
    cases hf
    cases hx
  | cons y ys ih =>
    intro f hf x hx
    unfold filterPyM at hf
    cases hp : p y with
    | none => rw [hp] at hf; cases hf
    | some b =>
      rw [hp] at hf
      cases hrec : filterPyM p ys with
      | none => rw [hrec] at hf; cases hf
      | some zs =>
        rw [hrec] at hf
        cases hf
        by_cases hb : b
        · subst hb
          rcases List.mem_cons.mp (by simpa using hx) with hx' | hx'
          · exact hx' ▸ List.mem_cons_self y ys
          · exact List.mem_cons_of_mem y (ih zs hrec x hx')
        · simp only [hb, Bool.false_eq_true, if_false] at hx
          exact List.mem_cons_of_mem y (ih zs hrec x hx)

/-- If `p` implies `q` pointwise (on kept elements), whatever survives the
`p`-comprehension survives the `q`-comprehension. -/
theorem filterPyM_mono (p q : α → Option Bool)
    (hpq : ∀ x, p x = some true → q x = some true) :
    ∀ (l f g : List α), filterPyM p l = some f → filterPyM q l = some g →
      ∀ x ∈ f, x ∈ g := by
  intro l
  induction l with
  | nil =>
    intro f g hf hg x hx
    unfold filterPyM at hf
    cases hf
    cases hx
  | cons y ys ih =>
    intro f g hf hg x hx
    unfold filterPyM at hf hg
    cases hp : p y with
    | none => rw [hp] at hf; cases hf
    | some b =>
      rw [hp] at hf
      cases hfrec : filterPyM p ys with
      | none => rw [hfrec] at hf; cases hf
      | some fs =>
        rw [hfrec] at hf
        cases hf
        cases hq : q y with
        | none => rw [hq] at hg; cases hg
        | some c =>
          rw [hq] at hg
          cases hgrec : filterPyM q ys with
          | none => rw [hgrec] at hg; cases hg
          | some gs =>
            rw [hgrec] at hg
            cases hg
            by_cases hb : b
            · subst hb
              rcases List.mem_cons.mp (by simpa using hx) with hx' | hx'
              · have hc : some c = some true := by
                  rw [← hq]
                  exact hpq y hp
                injection hc with hc'
                subst hc'
                subst hx'
                simp
              · have hmem := ih fs gs hfrec hgrec x hx'
                by_cases hc : c
                · subst hc; simp [hmem]
                · simpa [hc] using hmem
            · simp only [hb, Bool.false_eq_true, if_false] at hx
              have hmem := ih fs gs hfrec hgrec x hx
              by_cases hc : c
              · subst hc; simp [hmem]
              · simpa [hc] using hmem

/-- Raising the threshold only removes links. -/
theorem keep_version_link_mono (t1 t2 : Int) (hle : t1 ≤ t2) (l : Link)
    (hk : keep_version_link t2 l = some true) :
    keep_version_link t1 l = some true := by
  cases hp : pyInt (splitDotHead l.text) with
  | none =>
    have hnone : keep_version_link t2 l = none := by
      unfold keep_version_link
      rw [hp]
    rw [hnone] at hk
    cases hk
  | some n =>
    have hkeq : ∀ t : Int, keep_version_link t l =
        some (decide ((n : Int) ≥ t) || strContains l.text "esr") := by
      intro t
      unfold keep_version_link
      rw [hp]
    rw [hkeq t2] at hk
    rw [hkeq t1]
    have hk' := Option.some.inj hk
    rcases (Bool.or_eq_true _ _).mp hk' with hdec | hesr
    · have hget2 : (n : Int) ≥ t2 := of_decide_eq_true hdec
      have hget1 : (n : Int) ≥ t1 := le_trans hle hget2
      simp [decide_eq_true hget1]
    · simp [hesr]

/-- Whatever a filter keeps was in its input. -/
theorem filter_version_links_subset (mv : Option Nat) (links f : List Link)
    (h : filter_version_links mv links = some f) : ∀ x ∈ f, x ∈ links := by
  cases mv with
  | none =>
    cases h
    intro x hx
    exact hx
  | some v =>
    have hstep : filter_version_links (some v) links =
        if v = 0 then some links
        else filterPyM (keep_version_link ((v : Int) - 4)) links := rfl
    rw [hstep] at h
    by_cases hv : v = 0
    · rw [if_pos hv] at h
      cases h
      intro x hx
      exact hx
    · rw [if_neg hv] at h
      exact filterPyM_subset _ links f h

/-- A larger non-zero watermark keeps a subset of what a smaller non-zero
watermark keeps. -/
theorem filter_version_links_mono (links : List Link) (v v2 : Nat)
    (hvv : v ≤ v2) (hv : v ≠ 0) (f1 f2 : List Link)
    (h1 : filter_version_links (some v) links = some f1)
    (h2 : filter_version_links (some v2) links = some f2) :
    ∀ x ∈ f2, x ∈ f1 := by
  have hv2 : v2 ≠ 0 := by omega
  have hstep1 : filter_version_links (some v) links =
      if v = 0 then some links
      else filterPyM (keep_version_link ((v : Int) - 4)) links := rfl
  have hstep2 : filter_version_links (some v2) links =
      if v2 = 0 then some links
      else filterPyM (keep_version_link ((v2 : Int) - 4)) links := rfl
  rw [hstep1, if_neg hv] at h1
  rw [hstep2, if_neg hv2] at h2
  exact filterPyM_mono _ _
    (fun l hl => keep_version_link_mono ((v : Int) - 4) ((v2 : Int) - 4)
      (by omega) l hl) links f2 f1 h2 h1

/-! ## C5 -/

/-- C5: idempotence of the product walk.  If the first walk derives its rows
without an uncaught fault (as in the spec scenario, where run 1 inserts all
rows), then on the unchanged remote tree the second walk — which re-derives
rows under the new, possibly higher watermark — attempts only rows whose keys
are already present (every insert resolves as a duplicate), and the store,
including `successful_inserts`, is unchanged. -/
theorem c5_walk_idempotent (site : Site) (p a : String) (s0 : Store)
    (hclean : (scrape_candidates_rows site p a (get_max_major_version s0 p)).2 = none) :
    (∀ r ∈ (scrape_candidates_rows site p a
        (get_max_major_version (walk_product site p a s0) p)).1,
      hasKey (walk_product site p a s0) r = true) ∧
    walk_product site p a (walk_product site p a s0) = walk_product site p a s0 := by
  cases hf1 : filter_version_links (get_max_major_version s0 p)
      (version_links_of site a) with
  | none =>
    have hbad : (scrape_candidates_rows site p a (get_max_major_version s0 p)).2 =
        some PyErr.valueError := by
      unfold scrape_candidates_rows
      rw [hf1]
    rw [hbad] at hclean
    cases hclean
  | some f1 =>
    have hrows1 : scrape_candidates_rows site p a (get_max_major_version s0 p) =
        runEmits (f1.map (process_version site p (final_releases_of site a))) := by
      unfold scrape_candidates_rows
      rw [hf1]
    have hclean1 :
        (runEmits (f1.map (process_version site p (final_releases_of site a)))).2 =
          none := by
      rw [← hrows1]
      exact hclean
    have hs1 : walk_product site p a s0 =
        insertAll s0
          (runEmits (f1.map (process_version site p (final_releases_of site a)))).1 := by
      unfold walk_product
      rw [hrows1]
    have hsub : ∀ f2,
        filter_version_links (get_max_major_version (walk_product site p a s0) p)
          (version_links_of site a) = some f2 → ∀ x ∈ f2, x ∈ f1 := by
      intro f2 h2 x hx
      cases hmv1 : get_max_major_version s0 p with
      | none =>
        rw [hmv1] at hf1
        have hf1' : some (version_links_of site a) = some f1 := hf1
        have hlinks : f1 = version_links_of site a := (Option.some.inj hf1').symm
        rw [hlinks]
        exact filter_version_links_subset _ _ f2 h2 x hx
      | some v =>
        rw [hmv1] at hf1
        by_cases hv0 : v = 0
        · subst hv0
          have hf1' : some (version_links_of site a) = some f1 := hf1
          have hlinks : f1 = version_links_of site a := (Option.some.inj hf1').symm
          rw [hlinks]
          exact filter_version_links_subset _ _ f2 h2 x hx
        · obtain ⟨v2, hv2eq, hle⟩ := get_max_major_mono s0 _ p v hmv1
          rw [hs1, hv2eq] at h2
          exact filter_version_links_mono (version_links_of site a) v v2 hle hv0
            f1 f2 hf1 h2 x hx
    cases hf2 : filter_version_links (get_max_major_version (walk_product site p a s0) p)
        (version_links_of site a) with
    | none =>
      have hrows2 : (scrape_candidates_rows site p a
          (get_max_major_version (walk_product site p a s0) p)).1 = [] := by
        unfold scrape_candidates_rows
        rw [hf2]
      constructor
      · intro r hr
        rw [hrows2] at hr
        cases hr
      · have hw2 : walk_product site p a (walk_product site p a s0) =
            insertAll (walk_product site p a s0) (scrape_candidates_rows site p a
              (get_max_major_version (walk_product site p a s0) p)).1 := rfl
        rw [hw2, hrows2]
        rfl
    | some f2 =>
      have hrows2eq : scrape_candidates_rows site p a
          (get_max_major_version (walk_product site p a s0) p) =
          runEmits (f2.map (process_version site p (final_releases_of site a))) := by
        unfold scrape_candidates_rows
        rw [hf2]
      have hmem : ∀ r ∈ (scrape_candidates_rows site p a
          (get_max_major_version (walk_product site p a s0) p)).1,
          r ∈ (runEmits (f1.map (process_version site p (final_releases_of site a)))).1 := by
        intro r hr
        rw [hrows2eq] at hr
        obtain ⟨e, he, hre⟩ := runEmits_mem _ r hr
        obtain ⟨v, hvf2, hveq⟩ := List.mem_map.mp he
        subst hveq
        have hvf1 : v ∈ f1 := hsub f2 hf2 v hvf2
        exact runEmits_mem_of_clean _ hclean1 _ (List.mem_map_of_mem _ hvf1) r hre
      have hdup : ∀ r ∈ (scrape_candidates_rows site p a
          (get_max_major_version (walk_product site p a s0) p)).1,
          hasKey (walk_product site p a s0) r = true := by
        intro r hr
        rw [hs1]
        exact hasKey_insertAll_mem _ s0 r (hmem r hr)
      refine ⟨hdup, ?_⟩
      have hw2 : walk_product site p a (walk_product site p a s0) =
          insertAll (walk_product site p a s0) (scrape_candidates_rows site p a
            (get_max_major_version (walk_product site p a s0) p)).1 := rfl
      rw [hw2]
      exact insertAll_of_hasKey _ _ hdup

/-- A small concrete archive: one shipped train 63.0 with two candidate
builds, each carrying one linux platform with a buildhub descriptor. -/
def demoSite : Site :=
  { download := fun p =>
      if p == "/pub/firefox/releases/" then "REL"
      else if p == "/pub/firefox/candidates/" then "CAND"
      else if p == "/pub/firefox/candidates/63.0-candidates/" then "VER"
      else if p == "b1/" then "B1"
      else if p == "b2/" then "B2"
      else if p == "lx1/en-US/" then "L1"
      else if p == "lx2/en-US/" then "L2"
      else if p == "j1.buildhub.json" then "J1"
      else if p == "j2.buildhub.json" then "J2"
      else ""
    getLinks := fun c =>
      if c == "REL" then [⟨"63.0/", "63.0/"⟩]
      else if c == "CAND" then
        [⟨"/pub/firefox/candidates/63.0-candidates/", "63.0-candidates/"⟩]
      else if c == "VER" then [⟨"b2/", "build2/"⟩, ⟨"b1/", "build1/"⟩]
      else if c == "B1" then [⟨"lx1/", "linux-x86_64/"⟩]
      else if c == "B2" then [⟨"lx2/", "linux-x86_64/"⟩]
      else if c == "L1" then [⟨"j1.buildhub.json", "j1.buildhub.json"⟩]
      else if c == "L2" then [⟨"j2.buildhub.json", "j2.buildhub.json"⟩]
      else []
    jsonData := fun c =>
      if c == "J1" then some ⟨"release", "63.0", "bid1", "", "", ""⟩
      else if c == "J2" then some ⟨"release", "63.0", "bid2", "", "", ""⟩
      else none
    urljoin := fun p => "https://archive.mozilla.org" ++ p }

/-- C5 witness: the first walk over `demoSite` is fault-free (it inserts
three rows), and a second walk changes nothing. -/
theorem c5_walk_idempotent_witness :
    (scrape_candidates_rows demoSite "Firefox" "firefox"
        (get_max_major_version ⟨[], 0⟩ "Firefox")).2 = none ∧
    walk_product demoSite "Firefox" "firefox"
        (walk_product demoSite "Firefox" "firefox" ⟨[], 0⟩) =
      walk_product demoSite "Firefox" "firefox" ⟨[], 0⟩ :=
  ⟨by decide,
    (c5_walk_idempotent demoSite "Firefox" "firefox" ⟨[], 0⟩ (by decide)).2⟩

end ArchiveScraper
